import Mathlib

/-!
Verification development for the module bundler `bundle.py`.

The program has two parts:

* `remove_imports_exports(content)`: three sequential `re.sub` passes over the
  text, with `re.MULTILINE`:
    1. `^import\s+.*?from\s+['"].*?['"];?\s*$`   replaced by the empty string,
    2. `^import\s+\x7b[^\x7d]*\x7d\s+from\s+['"].*?['"];?\s*$` replaced by the empty string,
    3. `^export\s+`                              replaced by the empty string.
* `bundle_modules()`: reads a declared ordered list of module paths, skips the
  missing ones with a warning, stitches a header, per-module sections and a
  bootstrap segment together with `'\n'.join`, and prints a two-line summary.

The embedding below models text as `List Char` (wrapped into `String` at the
interface).  Each regular expression is hand-compiled to a deterministic
matcher.  Wherever the Python backtracking engine has a choice point, the
compilation argument for determinism is recorded in a comment next to the code.
-/

set_option maxRecDepth 8000

/-- Character class of Python's regex `\s` (and of `str.strip()` /
`str.isspace()`) for a `str` pattern: ASCII whitespace plus the Unicode
whitespace characters. -/
def isPySpace (c : Char) : Bool :=
  c = ' ' || c = '\t' || c = '\n' || c = '\x0b' || c = '\x0c' || c = '\r' ||
  c = '\x1c' || c = '\x1d' || c = '\x1e' || c = '\x1f' || c = '\x85' || c = '\xa0' ||
  c = '\u1680' || ('\u2000' ≤ c && c ≤ '\u200A') || c = '\u2028' || c = '\u2029' ||
  c = '\u202F' || c = '\u205F' || c = '\u3000'

/-- Character class `['"]` of the two import regexes. -/
def isQuote (c : Char) : Bool := c = '\x27' || c = '"'

/-- The literal `import` of patterns 1 and 2. -/
def importTok : List Char := ['i', 'm', 'p', 'o', 'r', 't']

/-- The literal `from` of patterns 1 and 2. -/
def fromTok : List Char := ['f', 'r', 'o', 'm']

/-- The literal `export` of pattern 3. -/
def exportTok : List Char := ['e', 'x', 'p', 'o', 'r', 't']

/-- Index of the last `'\n'` in a list, if any. -/
def lastNlIdx : List Char → Option Nat
  | [] => none
  | c :: u =>
    match lastNlIdx u with
    | some i => some (i + 1)
    | none => if c = '\n' then some 0 else none

/-- Tail piece `\s*$` of patterns 1 and 2 (MULTILINE `$`), applied to the text
`t` after the optional semicolon.  `\s*` greedily consumes the maximal
whitespace run and backtracks until it stands on a `$` position, i.e. a
position followed by `'\n'` or the end of the string.  Since every character
after the run is not whitespace (hence not `'\n'`), the surviving choices are:
consume the whole run when the run reaches the end of the string, otherwise
consume up to (excluding) the last `'\n'` of the run; fail when the run
contains no `'\n'`.  Returns the rest of the text after the match. -/
def tryWsEnd (t : List Char) : Option (List Char) :=
  let r := t.takeWhile isPySpace
  if (t.drop r.length).isEmpty then some []
  else
    match lastNlIdx r with
    | some j => some (t.drop j)
    | none => none

/-- Tail piece `;?\s*$`.  The greedy `;?` consumes a present semicolon first;
if `\s*$` then fails, the engine retries without consuming the semicolon
(that retry necessarily fails as well, because `\s*` cannot consume the `';'`
and `$` does not match in front of it, but it is kept for fidelity). -/
def trySemiEnd (t : List Char) : Option (List Char) :=
  match t with
  | ';' :: u =>
    (match tryWsEnd u with
     | some r => some r
     | none => tryWsEnd (';' :: u))
  | _ => tryWsEnd t

/-- Piece `.*?['"];?\s*$` that follows the opening quote in patterns 1 and 2.
The lazy `.*?` (where `.` does not match `'\n'`) enumerates the closing-quote
candidates left to right; for each candidate the continuation `;?\s*$` is
tried, and on failure the quote character itself is consumed by `.*?` and the
search continues.  The search dies at a `'\n'` or at the end of the text. -/
def findClose : List Char → Option (List Char)
  | [] => none
  | c :: u =>
    if c = '\n' then none
    else if isQuote c then
      match trySemiEnd u with
      | some r => some r
      | none => findClose u
    else findClose u

/-- Piece `\s+['"].*?['"];?\s*$` that follows the literal `from` in patterns
1 and 2.  `\s+` is greedy; a shorter-than-maximal run would leave the next
position on a whitespace character, which is not a quote, so only the maximal
run (required nonempty) can be followed by `['"]` — no backtracking needed.
Note that the run may contain `'\n'`: `\s` matches newlines. -/
def afterFrom (t : List Char) : Option (List Char) :=
  let r := t.takeWhile isPySpace
  if r.isEmpty then none
  else
    match t.drop r.length with
    | c :: u => if isQuote c then findClose u else none
    | [] => none

/-- Piece `.*?from\s+['"].*?['"];?\s*$` of pattern 1.  The lazy `.*?` (no
`'\n'`) enumerates the occurrences of `from` left to right; a failure anywhere
in the continuation resumes the search one character further. -/
def searchFrom : List Char → Option (List Char)
  | [] => none
  | c :: u =>
    if fromTok.isPrefixOf (c :: u) then
      match afterFrom (u.drop 3) with
      | some r => some r
      | none => if c = '\n' then none else searchFrom u
    else if c = '\n' then none
    else searchFrom u

/-- Matcher for pattern 1, `^import\s+.*?from\s+['"].*?['"];?\s*$`, tried at a
`^` position.  The greedy `\s+` after `import` is compiled to its maximal run:
a shorter run leaves the dropped whitespace to be consumed by `.*?`, which
cannot cross `'\n'` and meets no `from` candidate inside the whitespace, so
the set of reachable `from` occurrences — those following the maximal run with
no intervening `'\n'` — is independent of the choice.  Returns the text after
the match (`none` when the pattern does not match here). -/
def attempt1 (s : List Char) : Option (List Char) :=
  if importTok.isPrefixOf s then
    let t := s.drop 6
    let r := t.takeWhile isPySpace
    if r.isEmpty then none else searchFrom (t.drop r.length)
  else none

/-- Matcher for pattern 2,
`^import\s+\x7b[^\x7d]*\x7d\s+from\s+['"].*?['"];?\s*$`, tried at a `^`
position.  `\s+` runs are again maximal-only (the following literal is not
whitespace).  The greedy `[^\x7d]*` — which, unlike `.`, does match `'\n'` —
must stop at the first `'\x7d'`: stopping earlier puts the literal `'\x7d'`
on a non-`'\x7d'` character. -/
def attempt2 (s : List Char) : Option (List Char) :=
  if importTok.isPrefixOf s then
    let t := s.drop 6
    let r := t.takeWhile isPySpace
    if r.isEmpty then none
    else
      match t.drop r.length with
      | '\x7b' :: u =>
        let body := u.takeWhile (fun c => !(c = '\x7d'))
        (match u.drop body.length with
         | '\x7d' :: v =>
           let r2 := v.takeWhile isPySpace
           if r2.isEmpty then none
           else if fromTok.isPrefixOf (v.drop r2.length) then
             afterFrom ((v.drop r2.length).drop 4)
           else none
         | _ => none)
      | _ => none
  else none

/-- Matcher for pattern 3, `^export\s+`, tried at a `^` position: the literal
`export` followed by the maximal nonempty run of whitespace (greedy `\s+`
with nothing after it).  The run may contain newlines. -/
def attempt3 (s : List Char) : Option (List Char) :=
  if exportTok.isPrefixOf s then
    let t := s.drop 6
    let r := t.takeWhile isPySpace
    if r.isEmpty then none else some (t.drop r.length)
  else none

/-- After a match that rewrote the prefix of `s` down to the suffix `rest`,
`re.sub` resumes scanning at `rest`; that position is a `^` position exactly
when the character immediately before it — the last consumed one — is `'\n'`. -/
def lastConsumedNl (s rest : List Char) : Bool :=
  match (s.take (s.length - rest.length)).getLast? with
  | some c => c = '\n'
  | none => false

/-- One `re.sub(pattern, '', text, flags=re.MULTILINE)` pass for a pattern
anchored at `^`: scan left to right; at each `^` position try the matcher;
on a match emit nothing and resume after it, otherwise copy one character.
The `bol` flag says whether the current position is a `^` position.  The
`fuel` argument (set to the length of the text by `scanA`) makes the
recursion structural; each step consumes at least one character, so fuel
equal to the length never runs out.  The `rest.length ≤ cs.length` guard can
only fail for a matcher that consumes nothing, which none of the three
matchers above does. -/
def scanFuel (attempt : List Char → Option (List Char)) :
    Nat → List Char → Bool → List Char
  | 0, s, _ => s
  | _ + 1, [], _ => []
  | fuel + 1, c :: cs, bol =>
    if bol then
      match attempt (c :: cs) with
      | some rest =>
        if rest.length ≤ cs.length then
          scanFuel attempt fuel rest (lastConsumedNl (c :: cs) rest)
        else c :: scanFuel attempt fuel cs (c = '\n')
      | none => c :: scanFuel attempt fuel cs (c = '\n')
    else c :: scanFuel attempt fuel cs (c = '\n')

/-- One substitution pass over a character list (fuel instantiated). -/
def scanA (attempt : List Char → Option (List Char)) (s : List Char) (bol : Bool) :
    List Char := scanFuel attempt s.length s bol

/-- First substitution of `remove_imports_exports` (source line 35). -/
def subImport1 (s : String) : String := String.mk (scanA attempt1 s.data true)

/-- Second substitution of `remove_imports_exports` (source line 36). -/
def subImport2 (s : String) : String := String.mk (scanA attempt2 s.data true)

/-- Third substitution of `remove_imports_exports` (source line 39). -/
def subExport (s : String) : String := String.mk (scanA attempt3 s.data true)

/-- The function `remove_imports_exports` of `bundle.py` (lines 32-41): the
three substitution passes in source order. -/
def remove_imports_exports (s : String) : String :=
  subExport (subImport2 (subImport1 s))


/-- The static header segment, the first element of `output` (source lines
48-63, transcribed verbatim from the triple-quoted literal). -/
def headerText : String := "/**\n * Amazon Scraper Extension - Bundled Refactored Version\n * All modules combined into a single file for Chrome extension compatibility\n *\n * Original structure:\n * - src/utils/        (DOMHelpers, DataSanitizer, Validators)\n * - src/extractors/   (DataExtractor)\n * - src/scrapers/     (ProductScraper, BulkScraper)\n * - src/address/      (AddressImporter)\n * - src/ui/           (UIManager)\n * - src/storage/      (StorageManager)\n */\n\n\"use strict\";\n\n"

/-- The static bootstrap segment appended after all module sections (source
lines 89-131, transcribed verbatim from the triple-quoted literal). -/
def bootstrapText : String := "\n// ========================================\n// MAIN APPLICATION\n// ========================================\n\nclass AmazonScraperApp \x7b\n  constructor() \x7b\n    this.productScraper = null;\n    this.bulkScraper = null;\n    this.addressImporter = null;\n    this.init();\n  \x7d\n\n  async init() \x7b\n    if (document.readyState === \x27loading\x27) \x7b\n      document.addEventListener(\x27DOMContentLoaded\x27, () => this.initializeFeatures());\n    \x7d else \x7b\n      this.initializeFeatures();\n    \x7d\n\n    UIManager.injectStyles();\n  \x7d\n\n  async initializeFeatures() \x7b\n    if (DOMHelpers.isProductPage()) \x7b\n      this.productScraper = new ProductScraper();\n      await this.productScraper.init();\n    \x7d\n    else if (DOMHelpers.isCategoryPage()) \x7b\n      this.bulkScraper = new BulkScraper();\n      await this.bulkScraper.init();\n    \x7d\n\n    if (DOMHelpers.isAddressPage()) \x7b\n      this.addressImporter = new AddressImporter();\n      this.addressImporter.init();\n    \x7d\n  \x7d\n\x7d\n\n// Initialize the application\nnew AmazonScraperApp();\n"

/-- The declared ordered module list `MODULES` (source lines 11-30). -/
def MODULES : List String :=
  ["src/utils/DOMHelpers.js",
   "src/utils/DataSanitizer.js",
   "src/utils/Validators.js",
   "src/storage/StorageManager.js",
   "src/ui/UIManager.js",
   "src/extractors/DataExtractor.js",
   "src/scrapers/ProductScraper.js",
   "src/scrapers/BulkScraper.js",
   "src/address/AddressImporter.js"]

/-- Model of `os.path.basename` for POSIX paths: the part after the last
`/` (source line 81). -/
def basenameL (l : List Char) : List Char :=
  (l.reverse.takeWhile (fun c => !(c = '/'))).reverse

/-- Model of `str.replace(".js", "")` (source line 81): delete every
occurrence of `.js`, scanning left to right, resuming after each deletion. -/
def replaceJsL : List Char → List Char
  | '.' :: 'j' :: 's' :: rest => replaceJsL rest
  | c :: cs => c :: replaceJsL cs
  | [] => []

/-- The display name of a module (source lines 81 and 83):
`os.path.basename(path).replace('.js', '').upper()`.  `str.upper()` is
modelled by `Char.toUpper`, faithful on the ASCII range of the paths in use. -/
def displayName (p : String) : String :=
  String.mk ((replaceJsL (basenameL p.data)).map Char.toUpper)

/-- Model of `str.strip()` (source line 78): remove leading and trailing
whitespace (`str.isspace()` selects the same characters as `isPySpace`). -/
def pyStrip (s : String) : String :=
  String.mk (((s.data.dropWhile isPySpace).reverse.dropWhile isPySpace).reverse)

/-- Warning line printed for a missing module path (source line 68). -/
def warnMsg (p : String) : String := "Warning: " ++ p ++ " not found, skipping..."

/-- The divider comment line (40 equals signs, source lines 82-84). -/
def dividerLine : String := "// ========================================"

/-- The strings appended to `output` for one existing module with raw file
content `c` (source lines 71-86): divider, upper-cased module-name comment,
closing divider, import/export-stripped and trimmed content, and a blank
separator. -/
def sectionStrings (p c : String) : List String :=
  ["\n" ++ dividerLine,
   "// " ++ displayName p ++ " MODULE",
   dividerLine ++ "\n",
   pyStrip (remove_imports_exports c),
   "\n"]

/-- Section strings contributed by a module under the file system `fs`:
none when the path is missing. -/
def sectionOf (fs : String → Option String) (m : String) : List String :=
  match fs m with
  | none => []
  | some c => sectionStrings m c

/-- One iteration of the `for module_path in MODULES` loop (source lines
66-86), acting on the pair (warnings printed so far, output strings appended
so far): a missing path appends its warning, an existing one appends its
section strings. -/
def bundleStep (fs : String → Option String) (acc : List String × List String)
    (m : String) : List String × List String :=
  match fs m with
  | none => (acc.1 ++ [warnMsg m], acc.2)
  | some c => (acc.1, acc.2 ++ sectionStrings m c)

/-- Result of one run of `bundle_modules`: the warning lines printed for
missing modules, the text written to `content-refactored.js`, and the two
summary lines printed at the end (source lines 134-140). -/
structure BundleResult where
  warnings : List String
  content : String
  summary1 : String
  summary2 : String

/-- The function `bundle_modules` of `bundle.py` (lines 43-140).  The source
iterates over the global constant `MODULES`; here the module list is passed
as the first argument (pass `MODULES` to recover the source exactly), and the
file system is a partial map from paths to file contents (`none` models
`os.path.exists` returning false; read errors are out of scope — in the
source they propagate as fatal exceptions).  The final text is
`'\n'.join(output)`; the summaries print `len(MODULES)` and
`len(bundled_content)`. -/
def bundle_modules (modules : List String) (fs : String → Option String) :
    BundleResult :=
  let acc := modules.foldl (bundleStep fs) ([], [])
  let output := headerText :: acc.2 ++ [bootstrapText]
  let content := String.intercalate "\n" output
  { warnings := acc.1,
    content := content,
    summary1 := "Successfully bundled " ++ toString modules.length ++ " modules into content-refactored.js",
    summary2 := "Total size: " ++ toString content.length ++ " characters" }

/-- Number of declared modules that exist and are therefore processed.  The
source never computes this quantity; it is the specification-side notion
used by claim C4. -/
def processedCount (modules : List String) (fs : String → Option String) : Nat :=
  (modules.filter (fun m => (fs m).isSome)).length

/-- Substring test: does `pat` occur contiguously anywhere in `s`? -/
def containsPat (pat : List Char) : List Char → Bool
  | [] => pat.isPrefixOf []
  | c :: u => pat.isPrefixOf (c :: u) || containsPat pat u

/-- The token `.js` removed by `str.replace(".js", "")`. -/
def jsTok : List Char := ['.', 'j', 's']

/-- Variant of `remove_imports_exports` considered by claim C10: identical
except that the second import substitution (pattern 2, source line 36) is
omitted. -/
def remove_imports_exports_noBrace (s : String) : String :=
  subExport (subImport1 s)

/-- Per-line effect of the export substitution on a line satisfying `lineOK`:
strip a leading `export` together with the following whitespace run. -/
def stripExportLine (l : List Char) : List Char :=
  if exportTok.isPrefixOf l then
    let r := (l.drop 6).takeWhile isPySpace
    if r.isEmpty then l else (l.drop 6).drop r.length
  else l

/-- Lines on which the export substitution acts strictly inside the line: a
line starting with `export` must continue with a whitespace character and
still have non-whitespace content on the same line; otherwise the greedy
`\s+` of pattern 3 swallows the terminating newline and merges lines. -/
def lineOK (l : List Char) : Bool :=
  if exportTok.isPrefixOf l then
    match l.drop 6 with
    | [] => false
    | c :: _ =>
      if isPySpace c then !((l.drop 6).dropWhile isPySpace).isEmpty else true
  else true

/-- Join a list of newline-free lines into a text with `'\n'` separators. -/
def joinLinesL : List (List Char) → List Char
  | [] => []
  | [l] => l
  | l :: l2 :: ls => l ++ '\n' :: joinLinesL (l2 :: ls)

/-- String-level line join. -/
def joinLines (L : List String) : String :=
  String.mk (joinLinesL (L.map String.data))

/-- String-level `stripExportLine`. -/
def stripExportLineS (l : String) : String := String.mk (stripExportLine l.data)

/-- Example file system: one file `a.js` holding one exported class. -/
def exFs : String → Option String :=
  fun p => if p = "a.js" then some "export class A \x7b\x7d" else none

/-- Example file system with no files at all. -/
def noFs : String → Option String := fun _ => none

/-! ### Interface lemmas for the substitution scanner -/

/-- Raising sufficient fuel by one does not change the scan result. -/
theorem scanFuel_succ (attempt : List Char → Option (List Char)) :
    ∀ (fuel : Nat) (s : List Char) (b : Bool), s.length ≤ fuel →
      scanFuel attempt (fuel + 1) s b = scanFuel attempt fuel s b := by
  intro fuel
  induction fuel with
  | zero =>
    intro s b hs
    have hsnil : s = [] := List.length_eq_zero.mp (Nat.le_zero.mp hs)
    subst hsnil; rfl
  | succ f ih =>
    intro s b hs
    cases s with
    | nil => rfl
    | cons c cs =>
      have hcs : cs.length ≤ f := by simpa using hs
      cases b with
      | false => simpa [scanFuel] using ih cs (decide (c = '\n')) hcs
      | true =>
        cases hA : attempt (c :: cs) with
        | none => simpa [scanFuel, hA] using ih cs (decide (c = '\n')) hcs
        | some rest =>
          by_cases hlen : rest.length ≤ cs.length
          · have hr : rest.length ≤ f := le_trans hlen hcs
            simpa [scanFuel, hA, hlen] using
              ih rest (lastConsumedNl (c :: cs) rest) hr
          · simpa [scanFuel, hA, hlen] using ih cs (decide (c = '\n')) hcs

/-- Any fuel at least the length of the text gives the canonical result. -/
theorem scanFuel_eq_scanA (attempt : List Char → Option (List Char))
    (fuel : Nat) (s : List Char) (b : Bool) (h : s.length ≤ fuel) :
    scanFuel attempt fuel s b = scanA attempt s b := by
  have aux : ∀ d : Nat,
      scanFuel attempt (s.length + d) s b = scanFuel attempt s.length s b := by
    intro d
    induction d with
    | zero => rfl
    | succ n ih =>
      rw [← Nat.add_assoc, scanFuel_succ attempt (s.length + n) s b (Nat.le_add_right _ _)]
      exact ih
  have hf : fuel = s.length + (fuel - s.length) := by omega
  rw [hf, aux]; rfl

/-- Scanning the empty text yields the empty text. -/
theorem scanA_nil (attempt : List Char → Option (List Char)) (b : Bool) :
    scanA attempt [] b = [] := rfl

/-- Away from a `^` position the scanner copies one character; the next
position is a `^` position exactly when that character was a newline. -/
theorem scanA_cons_copy (attempt : List Char → Option (List Char)) (c : Char)
    (cs : List Char) :
    scanA attempt (c :: cs) false = c :: scanA attempt cs (decide (c = '\n')) := by
  show scanFuel attempt (cs.length + 1) (c :: cs) false = _
  simp [scanFuel]; rfl

/-- At a `^` position where the matcher fails, the scanner copies one
character. -/
theorem scanA_cons_none (attempt : List Char → Option (List Char)) {c : Char}
    {cs : List Char} (hA : attempt (c :: cs) = none) :
    scanA attempt (c :: cs) true = c :: scanA attempt cs (decide (c = '\n')) := by
  show scanFuel attempt (cs.length + 1) (c :: cs) true = _
  simp [scanFuel, hA]; rfl

/-- At a `^` position where the matcher succeeds, the match is erased and the
scan resumes after it. -/
theorem scanA_cons_match (attempt : List Char → Option (List Char)) {c : Char}
    {cs rest : List Char} (hA : attempt (c :: cs) = some rest)
    (hlen : rest.length ≤ cs.length) :
    scanA attempt (c :: cs) true =
      scanA attempt rest (lastConsumedNl (c :: cs) rest) := by
  show scanFuel attempt (cs.length + 1) (c :: cs) true = _
  simp [scanFuel, hA, hlen]
  exact scanFuel_eq_scanA attempt cs.length rest _ hlen

/-- A substitution pass is the identity on texts all of whose suffixes are
rejected by the matcher. -/
theorem scanA_id (attempt : List Char → Option (List Char))
    (Q : List Char → Prop) (hA : ∀ t, Q t → attempt t = none)
    (hQ : ∀ c cs, Q (c :: cs) → Q cs) :
    ∀ s, Q s → ∀ b, scanA attempt s b = s := by
  intro s
  induction s with
  | nil => intro _ b; exact scanA_nil attempt b
  | cons c cs ih =>
    intro hq b
    cases b with
    | false => rw [scanA_cons_copy, ih (hQ c cs hq) _]
    | true => rw [scanA_cons_none attempt (hA _ hq), ih (hQ c cs hq) _]

/-- Characters of a scan result come from the scanned text, provided a
successful match always returns a piece of its input. -/
theorem scanFuel_mem (attempt : List Char → Option (List Char))
    (hA : ∀ t r, attempt t = some r → ∀ c, c ∈ r → c ∈ t) :
    ∀ (fuel : Nat) (s : List Char) (b : Bool) (c : Char),
      c ∈ scanFuel attempt fuel s b → c ∈ s := by
  intro fuel
  induction fuel with
  | zero => intro s b c h; exact h
  | succ f ih =>
    intro s b c h
    cases s with
    | nil => simp [scanFuel] at h
    | cons c0 cs =>
      cases b with
      | false =>
        rw [show scanFuel attempt (f + 1) (c0 :: cs) false
              = c0 :: scanFuel attempt f cs (decide (c0 = '\n')) from by
            simp [scanFuel]] at h
        rcases List.mem_cons.mp h with h0 | h1
        · exact h0 ▸ List.mem_cons_self _ _
        · exact List.mem_cons_of_mem _ (ih cs _ c h1)
      | true =>
        cases hA2 : attempt (c0 :: cs) with
        | none =>
          rw [show scanFuel attempt (f + 1) (c0 :: cs) true
                = c0 :: scanFuel attempt f cs (decide (c0 = '\n')) from by
              simp [scanFuel, hA2]] at h
          rcases List.mem_cons.mp h with h0 | h1
          · exact h0 ▸ List.mem_cons_self _ _
          · exact List.mem_cons_of_mem _ (ih cs _ c h1)
        | some rest =>
          by_cases hlen : rest.length ≤ cs.length
          · rw [show scanFuel attempt (f + 1) (c0 :: cs) true
                  = scanFuel attempt f rest (lastConsumedNl (c0 :: cs) rest) from by
                simp [scanFuel, hA2, hlen]] at h
            exact hA _ _ hA2 c (ih rest _ c h)
          · rw [show scanFuel attempt (f + 1) (c0 :: cs) true
                  = c0 :: scanFuel attempt f cs (decide (c0 = '\n')) from by
              simp [scanFuel, hA2, hlen]] at h
            rcases List.mem_cons.mp h with h0 | h1
            · exact h0 ▸ List.mem_cons_self _ _
            · exact List.mem_cons_of_mem _ (ih cs _ c h1)

/-! ### The matchers reject texts lacking their trigger token -/

/-- Pattern 1 needs the literal `import` at the match position. -/
theorem attempt1_none_of_no_tok {s : List Char}
    (h : importTok.isPrefixOf s = false) : attempt1 s = none := by
  simp [attempt1, h]

/-- Pattern 2 needs the literal `import` at the match position. -/
theorem attempt2_none_of_no_tok {s : List Char}
    (h : importTok.isPrefixOf s = false) : attempt2 s = none := by
  simp [attempt2, h]

/-- Pattern 3 needs the literal `export` at the match position. -/
theorem attempt3_none_of_no_tok {s : List Char}
    (h : exportTok.isPrefixOf s = false) : attempt3 s = none := by
  simp [attempt3, h]

/-- A pattern that occurs nowhere in a text is in particular no prefix of it. -/
theorem containsPat_no_pfx {pat s : List Char}
    (h : containsPat pat s = false) : pat.isPrefixOf s = false := by
  cases s with
  | nil => exact h
  | cons c u =>
    have h' : (pat.isPrefixOf (c :: u) || containsPat pat u) = false := h
    exact (Bool.or_eq_false_iff.mp h').1

/-- Absence of a pattern is inherited by the tail. -/
theorem containsPat_tail {pat : List Char} {c : Char} {u : List Char}
    (h : containsPat pat (c :: u) = false) : containsPat pat u = false := by
  have h' : (pat.isPrefixOf (c :: u) || containsPat pat u) = false := h
  exact (Bool.or_eq_false_iff.mp h').2

/-- The first import substitution leaves a text with no occurrence of
`import` unchanged. -/
theorem subImport1_id {s : String} (h : containsPat importTok s.data = false) :
    subImport1 s = s := by
  apply String.ext
  exact scanA_id attempt1 (fun t => containsPat importTok t = false)
    (fun t ht => attempt1_none_of_no_tok (containsPat_no_pfx ht))
    (fun c cs hc => containsPat_tail hc) s.data h true

/-- The second import substitution leaves a text with no occurrence of
`import` unchanged. -/
theorem subImport2_id {s : String} (h : containsPat importTok s.data = false) :
    subImport2 s = s := by
  apply String.ext
  exact scanA_id attempt2 (fun t => containsPat importTok t = false)
    (fun t ht => attempt2_none_of_no_tok (containsPat_no_pfx ht))
    (fun c cs hc => containsPat_tail hc) s.data h true

/-- The export substitution leaves a text with no occurrence of `export`
unchanged. -/
theorem subExport_id {s : String} (h : containsPat exportTok s.data = false) :
    subExport s = s := by
  apply String.ext
  exact scanA_id attempt3 (fun t => containsPat exportTok t = false)
    (fun t ht => attempt3_none_of_no_tok (containsPat_no_pfx ht))
    (fun c cs hc => containsPat_tail hc) s.data h true

/-- On a text containing neither `import` nor `export`,
`remove_imports_exports` is the identity. -/
theorem remove_imports_exports_id {s : String}
    (h1 : containsPat importTok s.data = false)
    (h2 : containsPat exportTok s.data = false) :
    remove_imports_exports s = s := by
  unfold remove_imports_exports
  rw [subImport1_id h1, subImport2_id h1, subExport_id h2]

/-! ### The matchers return suffixes of their input -/

/-- `tryWsEnd` returns a suffix of its input. -/
theorem tryWsEnd_suffix {t r : List Char} (h : tryWsEnd t = some r) : r <:+ t := by
  simp only [tryWsEnd] at h
  split at h
  · cases Option.some.inj h; exact List.nil_suffix
  · split at h
    · cases Option.some.inj h; exact List.drop_suffix _ t
    · exact absurd h (by simp)

/-- `trySemiEnd` returns a suffix of its input. -/
theorem trySemiEnd_suffix {t r : List Char} (h : trySemiEnd t = some r) : r <:+ t := by
  unfold trySemiEnd at h
  split at h
  · rename_i u
    split at h
    · rename_i r2 hr2
      cases Option.some.inj h
      exact (tryWsEnd_suffix hr2).trans (List.suffix_cons _ _)
    · exact tryWsEnd_suffix h
  · exact tryWsEnd_suffix h

/-- `findClose` returns a suffix of its input. -/
theorem findClose_suffix : ∀ {t r : List Char}, findClose t = some r → r <:+ t := by
  intro t
  induction t with
  | nil => intro r h; simp [findClose] at h
  | cons c u ih =>
    intro r h
    unfold findClose at h
    split at h
    · exact absurd h (by simp)
    · split at h
      · split at h
        · rename_i r2 hr2
          cases Option.some.inj h
          exact (trySemiEnd_suffix hr2).trans (List.suffix_cons _ _)
        · exact (ih h).trans (List.suffix_cons _ _)
      · exact (ih h).trans (List.suffix_cons _ _)

/-- `afterFrom` returns a suffix of its input. -/
theorem afterFrom_suffix {t r : List Char} (h : afterFrom t = some r) : r <:+ t := by
  simp only [afterFrom] at h
  split at h
  · exact absurd h (by simp)
  · split at h
    · rename_i c u heq
      split at h
      · exact ((findClose_suffix h).trans (List.suffix_cons _ _)).trans
          (heq ▸ List.drop_suffix _ t)
      · exact absurd h (by simp)
    · exact absurd h (by simp)

/-- `searchFrom` returns a suffix of its input. -/
theorem searchFrom_suffix : ∀ {t r : List Char}, searchFrom t = some r → r <:+ t := by
  intro t
  induction t with
  | nil => intro r h; simp [searchFrom] at h
  | cons c u ih =>
    intro r h
    unfold searchFrom at h
    split at h
    · split at h
      · rename_i r2 hr2
        cases Option.some.inj h
        exact ((afterFrom_suffix hr2).trans (List.drop_suffix 3 u)).trans
          (List.suffix_cons _ _)
      · split at h
        · exact absurd h (by simp)
        · exact (ih h).trans (List.suffix_cons _ _)
    · split at h
      · exact absurd h (by simp)
      · exact (ih h).trans (List.suffix_cons _ _)

/-- `attempt1` returns a suffix of its input. -/
theorem attempt1_suffix {s r : List Char} (h : attempt1 s = some r) : r <:+ s := by
  simp only [attempt1] at h
  split at h
  · split at h
    · exact absurd h (by simp)
    · exact ((searchFrom_suffix h).trans
        ((List.drop_suffix _ _).trans (List.drop_suffix 6 s)))
  · exact absurd h (by simp)

/-- A successful `attempt2` certifies an opening brace in the input. -/
theorem attempt2_some_brace {s r : List Char} (h : attempt2 s = some r) :
    '\x7b' ∈ s := by
  simp only [attempt2] at h
  split at h
  · split at h
    · exact absurd h (by simp)
    · split at h
      · rename_i u heq
        have hmem : '\x7b' ∈ (s.drop 6).drop ((s.drop 6).takeWhile isPySpace).length := by
          rw [heq]; exact List.mem_cons_self _ _
        exact List.drop_subset 6 s (List.drop_subset _ _ hmem)
      · exact absurd h (by simp)
  · exact absurd h (by simp)

/-! ### Small list helpers -/

/-- `takeWhile` over an append stops at the first failing element. -/
theorem takeWhile_append_stop {p : Char → Bool} :
    ∀ (w : List Char), (∀ a ∈ w, p a = true) → ∀ (d : Char), p d = false →
      ∀ (z : List Char), (w ++ d :: z).takeWhile p = w := by
  intro w
  induction w with
  | nil => intro _ d hd z; simp [List.takeWhile_cons, hd]
  | cons a as ih =>
    intro hall d hd z
    rw [List.cons_append, List.takeWhile_cons, if_pos (hall a (List.mem_cons_self _ _)),
        ih (fun x hx => hall x (List.mem_cons_of_mem _ hx)) d hd z]

/-- The head surviving a `dropWhile` fails the predicate. -/
theorem dropWhile_head_false {p : Char → Bool} :
    ∀ {l : List Char} {c : Char} {u : List Char}, l.dropWhile p = c :: u → p c = false := by
  intro l
  induction l with
  | nil => intro c u h; simp [List.dropWhile] at h
  | cons a as ih =>
    intro c u h
    rw [List.dropWhile_cons] at h
    by_cases hp : p a
    · rw [if_pos hp] at h; exact ih h
    · rw [if_neg hp] at h
      injection h with h1 _
      subst h1
      simpa using hp

/-- A prefix of a list is a prefix of any extension. -/
theorem isPrefixOf_append {pat l : List Char} (x : List Char)
    (h : pat.isPrefixOf l = true) : pat.isPrefixOf (l ++ x) = true :=
  List.isPrefixOf_iff_prefix.mpr
    ((List.isPrefixOf_iff_prefix.mp h).trans (List.prefix_append l x))

/-- A newline-free pattern is a prefix of `l ++ '\n' :: rest` exactly when it
is a prefix of `l`. -/
theorem isPrefixOf_append_nl :
    ∀ (pat l rest : List Char), '\n' ∉ pat →
      pat.isPrefixOf (l ++ '\n' :: rest) = pat.isPrefixOf l := by
  intro pat
  induction pat with
  | nil => intro l rest _; simp [List.isPrefixOf]
  | cons p ps ih =>
    intro l rest hnl
    cases l with
    | nil =>
      have hp : (p == '\n') = false := by
        simp only [beq_eq_false_iff_ne, ne_eq]
        exact fun he => hnl (he ▸ List.mem_cons_self _ _)
      simp [List.isPrefixOf, hp]
    | cons c l' =>
      simp only [List.cons_append, List.isPrefixOf, List.append_eq]
      rw [ih l' rest (fun hm => hnl (List.mem_cons_of_mem _ hm))]

/-- Membership certificate from `getLast?`. -/
theorem getLastQ_mem : ∀ {l : List Char} {a : Char}, l.getLast? = some a → a ∈ l := by
  intro l
  induction l with
  | nil => intro a h; simp [List.getLast?] at h
  | cons c cs ih =>
    intro a h
    cases cs with
    | nil =>
      simp only [List.getLast?_singleton, Option.some.injEq] at h
      exact h ▸ List.mem_cons_self _ _
    | cons d ds =>
      rw [List.getLast?_cons_cons] at h
      exact List.mem_cons_of_mem _ (ih h)

/-- Resuming after a newline-free nonempty consumed piece is not a `^`
position. -/
theorem lastConsumedNl_false {consumed rest : List Char}
    (hnl : '\n' ∉ consumed) :
    lastConsumedNl (consumed ++ rest) rest = false := by
  unfold lastConsumedNl
  have hlen : (consumed ++ rest).length - rest.length = consumed.length := by
    rw [List.length_append]; omega
  rw [hlen, List.take_left]
  cases hgl : consumed.getLast? with
  | none => rfl
  | some wl =>
    have hmem := getLastQ_mem hgl
    have hwl : ¬ wl = '\n' := fun he => hnl (he ▸ hmem)
    simp [hwl]

/-! ### The export substitution acts line by line on OK lines -/

/-- One copy step for every character of a newline-free piece. -/
theorem scanA_copy_append (attempt : List Char → Option (List Char)) :
    ∀ (u rest : List Char), '\n' ∉ u →
      scanA attempt (u ++ rest) false = u ++ scanA attempt rest false := by
  intro u
  induction u with
  | nil => intro rest _; rfl
  | cons c u' ih =>
    intro rest hnl
    have hc : (decide (c = '\n')) = false := by
      simp only [decide_eq_false_iff_not]
      exact fun he => hnl (he ▸ List.mem_cons_self _ _)
    rw [List.cons_append, scanA_cons_copy, hc, ih rest (fun hm => hnl (List.mem_cons_of_mem _ hm)),
        List.cons_append]

/-- A newline-free text is copied verbatim away from `^` positions. -/
theorem scanA_copy_nonl (attempt : List Char → Option (List Char))
    (u : List Char) (hnl : '\n' ∉ u) : scanA attempt u false = u := by
  have h2 := scanA_copy_append attempt u [] hnl
  simpa [scanA_nil] using h2

/-- Nonempty-match step of the scanner, for an arbitrary nonempty text. -/
theorem scanA_match (attempt : List Char → Option (List Char))
    {s rest : List Char} (hA : attempt s = some rest)
    (hlen : rest.length < s.length) :
    scanA attempt s true = scanA attempt rest (lastConsumedNl s rest) := by
  cases s with
  | nil => simp at hlen
  | cons c cs =>
    exact scanA_cons_match attempt hA (by simpa [Nat.lt_succ_iff] using hlen)

/-- Elimination for `lineOK` on a line that does start with `export`. -/
theorem lineOK_elim {l : List Char} (hok : lineOK l = true)
    (hpre : exportTok.isPrefixOf l = true) :
    ((l.drop 6).takeWhile isPySpace = [] ∧ l.drop 6 ≠ []) ∨
    ((l.drop 6).takeWhile isPySpace ≠ [] ∧ (l.drop 6).dropWhile isPySpace ≠ []) := by
  rw [lineOK, if_pos hpre] at hok
  cases ht : l.drop 6 with
  | nil => rw [ht] at hok; simp at hok
  | cons c0 t0 =>
    rw [ht] at hok
    simp only [] at hok
    by_cases hsp : isPySpace c0
    · right
      refine ⟨?_, ?_⟩
      · rw [List.takeWhile_cons, if_pos hsp]; simp
      · have hok2 : ((c0 :: t0).dropWhile isPySpace).isEmpty = false := by
          rw [if_pos hsp] at hok
          simpa using hok
        simpa [List.isEmpty_iff] using hok2
    · left
      refine ⟨?_, ?_⟩
      · rw [List.takeWhile_cons, if_neg hsp]
      · simp

/-- Dropping the length of the `takeWhile` prefix is `dropWhile`. -/
theorem drop_takeWhile {p : Char → Bool} : ∀ (t : List Char),
    t.drop (t.takeWhile p).length = t.dropWhile p := by
  intro t
  induction t with
  | nil => rfl
  | cons c cs ih =>
    rw [List.takeWhile_cons, List.dropWhile_cons]
    by_cases h : p c
    · rw [if_pos h, if_pos h, List.length_cons, List.drop_succ_cons, ih]
    · rw [if_neg h, if_neg h]; rfl

/-- A line starting with `export` decomposes as `export` plus its tail. -/
theorem export_line_decomp {l : List Char} (hpre : exportTok.isPrefixOf l = true) :
    exportTok ++ l.drop 6 = l := by
  obtain ⟨t, ht⟩ := List.isPrefixOf_iff_prefix.mp hpre
  have hdrop : l.drop 6 = t := by rw [← ht]; exact List.drop_left exportTok t
  rw [hdrop, ht]

/-- Finer decomposition: the token, the whitespace run, then the remainder. -/
theorem export_line_split {l : List Char} (hpre : exportTok.isPrefixOf l = true)
    (x : List Char) :
    l ++ x = (exportTok ++ (l.drop 6).takeWhile isPySpace)
      ++ ((l.drop 6).dropWhile isPySpace ++ x) := by
  obtain ⟨t, ht⟩ := List.isPrefixOf_iff_prefix.mp hpre
  have hdrop : l.drop 6 = t := by rw [← ht]; exact List.drop_left exportTok t
  rw [hdrop, ← ht, List.append_assoc, List.append_assoc]
  congr 1
  rw [← List.append_assoc, List.takeWhile_append_dropWhile]

/-- Evaluation of the export matcher after its literal token. -/
theorem attempt3_eval (T : List Char) :
    attempt3 (exportTok ++ T) =
      (if (T.takeWhile isPySpace).isEmpty then none
       else some (T.drop (T.takeWhile isPySpace).length)) := by
  have hpre : exportTok.isPrefixOf (exportTok ++ T) = true :=
    List.isPrefixOf_iff_prefix.mpr (List.prefix_append _ _)
  have hdrop : (exportTok ++ T).drop 6 = T := List.drop_left exportTok T
  simp only [attempt3, hpre, if_true, hdrop]

/-- The export matcher fails on an `export`-prefixed line whose next
character exists but is not whitespace (`\s+` needs one whitespace). -/
theorem attempt3_none_head_nonspace {l : List Char} (x : List Char)
    (hpre : exportTok.isPrefixOf l = true)
    (hw : (l.drop 6).takeWhile isPySpace = []) (hne : l.drop 6 ≠ []) :
    attempt3 (l ++ x) = none := by
  have hl := export_line_decomp hpre
  have hstep : l ++ x = exportTok ++ (l.drop 6 ++ x) := by
    rw [← List.append_assoc, hl]
  cases ht : l.drop 6 with
  | nil => exact absurd ht hne
  | cons c0 t0 =>
    have hsp : isPySpace c0 = false := by
      rw [ht, List.takeWhile_cons] at hw
      by_cases h : isPySpace c0
      · rw [if_pos h] at hw; simp at hw
      · simpa using h
    have htw : (c0 :: (t0 ++ x)).takeWhile isPySpace = [] := by
      rw [List.takeWhile_cons, if_neg (by simp [hsp])]
    rw [hstep, attempt3_eval, ht, List.cons_append, htw]
    simp

/-- The export matcher consumes the token and the in-line whitespace run when
non-whitespace content follows inside the line. -/
theorem attempt3_run {l : List Char} (x : List Char)
    (hpre : exportTok.isPrefixOf l = true)
    (hwne : (l.drop 6).takeWhile isPySpace ≠ [])
    (hzne : (l.drop 6).dropWhile isPySpace ≠ []) :
    attempt3 (l ++ x) = some ((l.drop 6).dropWhile isPySpace ++ x) := by
  have hl := export_line_decomp hpre
  obtain ⟨zh, zt, hz⟩ : ∃ zh zt, (l.drop 6).dropWhile isPySpace = zh :: zt := by
    cases h : (l.drop 6).dropWhile isPySpace with
    | nil => exact absurd h hzne
    | cons a b => exact ⟨a, b, rfl⟩
  have hzh : isPySpace zh = false := dropWhile_head_false hz
  have hstep : l ++ x = exportTok ++ (l.drop 6 ++ x) := by
    rw [← List.append_assoc, hl]
  have hsh : l.drop 6 ++ x
      = (l.drop 6).takeWhile isPySpace ++ zh :: (zt ++ x) := by
    conv_lhs => rw [← List.takeWhile_append_dropWhile isPySpace (l.drop 6), hz]
    rw [List.append_assoc, List.cons_append]
  rw [hstep, attempt3_eval, hsh,
      takeWhile_append_stop _ (fun a ha => List.mem_takeWhile_imp ha) zh hzh _,
      if_neg (by simpa [List.isEmpty_iff] using hwne)]
  rw [List.drop_left, hz, List.cons_append]

/-- `stripExportLine` on a line without the `export` prefix. -/
theorem stripExportLine_no_pfx {l : List Char}
    (h : exportTok.isPrefixOf l = false) : stripExportLine l = l := by
  simp [stripExportLine, h]

/-- `stripExportLine` on a line whose `export` is not followed by
whitespace. -/
theorem stripExportLine_run_empty {l : List Char}
    (hpre : exportTok.isPrefixOf l = true)
    (hw : (l.drop 6).takeWhile isPySpace = []) : stripExportLine l = l := by
  simp [stripExportLine, hpre, hw]

/-- `stripExportLine` on a line whose `export` is followed by whitespace. -/
theorem stripExportLine_run {l : List Char}
    (hpre : exportTok.isPrefixOf l = true)
    (hwne : (l.drop 6).takeWhile isPySpace ≠ []) :
    stripExportLine l = (l.drop 6).dropWhile isPySpace := by
  rw [stripExportLine, if_pos hpre]
  rw [if_neg (by simpa [List.isEmpty_iff] using hwne)]
  exact drop_takeWhile (l.drop 6)

/-- Copy a full line (no match at its `^` position) followed by more lines. -/
theorem scanA3_copy_whole {l : List Char} (rest : List Char) (hnl : '\n' ∉ l)
    (hA : attempt3 (l ++ '\n' :: rest) = none) :
    scanA attempt3 (l ++ '\n' :: rest) true
      = l ++ '\n' :: scanA attempt3 rest true := by
  cases l with
  | nil =>
    rw [List.nil_append] at hA ⊢
    rw [scanA_cons_none attempt3 hA]
    simp
  | cons c ls =>
    have hc : (decide (c = '\n')) = false := by
      simp only [decide_eq_false_iff_not]
      exact fun he => hnl (he ▸ List.mem_cons_self _ _)
    rw [List.cons_append] at hA ⊢
    rw [scanA_cons_none attempt3 hA, hc,
        scanA_copy_append attempt3 ls ('\n' :: rest)
          (fun hm => hnl (List.mem_cons_of_mem _ hm)),
        scanA_cons_copy]
    simp

/-- On an OK line followed by a newline the export substitution rewrites the
line by `stripExportLine` and continues at the next line from a `^`
position. -/
theorem scanA3_line_step {l : List Char} (rest : List Char)
    (hnl : '\n' ∉ l) (hok : lineOK l = true) :
    scanA attempt3 (l ++ '\n' :: rest) true
      = stripExportLine l ++ '\n' :: scanA attempt3 rest true := by
  by_cases hpre : exportTok.isPrefixOf l = true
  · rcases lineOK_elim hok hpre with ⟨hw, hne⟩ | ⟨hwne, hzne⟩
    · rw [scanA3_copy_whole rest hnl (attempt3_none_head_nonspace _ hpre hw hne),
          stripExportLine_run_empty hpre hw]
    · have hA := attempt3_run ('\n' :: rest) hpre hwne hzne
      have hlc := congrArg List.length (export_line_decomp hpre)
      rw [List.length_append] at hlc
      have h6 : exportTok.length = 6 := rfl
      rw [h6] at hlc
      have hzlen : ((l.drop 6).dropWhile isPySpace).length ≤ (l.drop 6).length :=
        (List.dropWhile_suffix isPySpace).length_le
      have hlen : ((l.drop 6).dropWhile isPySpace ++ '\n' :: rest).length
          < (l ++ '\n' :: rest).length := by
        rw [List.length_append, List.length_append]
        omega
      rw [scanA_match attempt3 hA hlen]
      have hbol : lastConsumedNl (l ++ '\n' :: rest)
          ((l.drop 6).dropWhile isPySpace ++ '\n' :: rest) = false := by
        rw [export_line_split hpre ('\n' :: rest)]
        apply lastConsumedNl_false
        intro hm
        rcases List.mem_append.mp hm with hm1 | hm2
        · revert hm1; decide
        · exact hnl (List.drop_subset 6 l ((List.takeWhile_prefix isPySpace).subset hm2))
      rw [hbol]
      have hznl : '\n' ∉ (l.drop 6).dropWhile isPySpace := fun hm =>
        hnl (List.drop_subset 6 l ((List.dropWhile_suffix isPySpace).subset hm))
      rw [scanA_copy_append attempt3 _ ('\n' :: rest) hznl, scanA_cons_copy,
          stripExportLine_run hpre hwne]
      simp
  · have hpre2 : exportTok.isPrefixOf l = false := by
      cases hb : exportTok.isPrefixOf l
      · rfl
      · exact absurd hb hpre
    have hA : attempt3 (l ++ '\n' :: rest) = none := by
      apply attempt3_none_of_no_tok
      rw [isPrefixOf_append_nl exportTok l rest (by decide)]
      exact hpre2
    rw [scanA3_copy_whole rest hnl hA, stripExportLine_no_pfx hpre2]

/-- On a final OK line (no trailing newline) the export substitution acts by
`stripExportLine`. -/
theorem scanA3_last_line {l : List Char} (hnl : '\n' ∉ l) (hok : lineOK l = true) :
    scanA attempt3 l true = stripExportLine l := by
  by_cases hpre : exportTok.isPrefixOf l = true
  · rcases lineOK_elim hok hpre with ⟨hw, hne⟩ | ⟨hwne, hzne⟩
    · have hA : attempt3 l = none := by
        have h2 := attempt3_none_head_nonspace [] hpre hw hne
        simpa using h2
      rw [stripExportLine_run_empty hpre hw]
      cases l with
      | nil => rfl
      | cons c ls =>
        have hc : (decide (c = '\n')) = false := by
          simp only [decide_eq_false_iff_not]
          exact fun he => hnl (he ▸ List.mem_cons_self _ _)
        rw [scanA_cons_none attempt3 hA, hc,
            scanA_copy_nonl attempt3 ls (fun hm => hnl (List.mem_cons_of_mem _ hm))]
    · obtain ⟨z, hzdef⟩ : ∃ z, (l.drop 6).dropWhile isPySpace = z := ⟨_, rfl⟩
      have hA : attempt3 l = some z := by
        have h2 := attempt3_run [] hpre hwne hzne
        rw [hzdef] at h2
        simpa using h2
      have hlc := congrArg List.length (export_line_decomp hpre)
      rw [List.length_append] at hlc
      have h6 : exportTok.length = 6 := rfl
      rw [h6] at hlc
      have hzlen : z.length ≤ (l.drop 6).length := by
        rw [← hzdef]; exact (List.dropWhile_suffix isPySpace).length_le
      have hlen : z.length < l.length := by omega
      rw [scanA_match attempt3 hA hlen]
      have hsplit : l = (exportTok ++ (l.drop 6).takeWhile isPySpace) ++ z := by
        have h2 := export_line_split hpre ([] : List Char)
        rw [hzdef] at h2
        simpa using h2
      have hbol : lastConsumedNl l z = false := by
        rw [hsplit]
        apply lastConsumedNl_false
        intro hm
        rcases List.mem_append.mp hm with hm1 | hm2
        · revert hm1; decide
        · exact hnl (List.drop_subset 6 l ((List.takeWhile_prefix isPySpace).subset hm2))
      rw [hbol]
      have hznl : '\n' ∉ z := fun hm => by
        rw [← hzdef] at hm
        exact hnl (List.drop_subset 6 l ((List.dropWhile_suffix isPySpace).subset hm))
      rw [scanA_copy_nonl attempt3 z hznl, stripExportLine_run hpre hwne, hzdef]
  · have hpre2 : exportTok.isPrefixOf l = false := by
      cases hb : exportTok.isPrefixOf l
      · rfl
      · exact absurd hb hpre
    rw [stripExportLine_no_pfx hpre2]
    cases l with
    | nil => rfl
    | cons c ls =>
      have hc : (decide (c = '\n')) = false := by
        simp only [decide_eq_false_iff_not]
        exact fun he => hnl (he ▸ List.mem_cons_self _ _)
      rw [scanA_cons_none attempt3 (attempt3_none_of_no_tok hpre2), hc,
          scanA_copy_nonl attempt3 ls (fun hm => hnl (List.mem_cons_of_mem _ hm))]

/-- The export substitution acts line by line on a text whose lines are all
newline-free and OK. -/
theorem scanA3_join : ∀ (L : List (List Char)),
    (∀ l ∈ L, '\n' ∉ l ∧ lineOK l = true) →
    scanA attempt3 (joinLinesL L) true = joinLinesL (L.map stripExportLine) := by
  intro L
  induction L with
  | nil => intro _; rfl
  | cons l ls ih =>
    intro h
    cases ls with
    | nil =>
      simp only [joinLinesL, List.map]
      exact scanA3_last_line (h l (List.mem_cons_self _ _)).1
        (h l (List.mem_cons_self _ _)).2
    | cons l2 ls2 =>
      simp only [joinLinesL, List.map]
      rw [scanA3_line_step _ (h l (List.mem_cons_self _ _)).1
            (h l (List.mem_cons_self _ _)).2,
          ih (fun x hx => h x (List.mem_cons_of_mem _ hx))]
      rfl

/-! ### Miscellaneous helpers for the bundler claims -/

/-- A character with a false `contains` test is not a member. -/
theorem contains_false_not_mem {l : List Char} {a : Char}
    (h : l.contains a = false) : a ∉ l := by
  intro hm
  have h' : l.elem a = true := List.elem_iff.mpr hm
  have h2 : l.elem a = false := h
  rw [h'] at h2
  exact absurd h2 (by simp)

/-- `takeWhile` keeps a list all of whose elements satisfy the predicate. -/
theorem takeWhile_all {p : Char → Bool} : ∀ (l : List Char),
    (∀ a ∈ l, p a = true) → l.takeWhile p = l := by
  intro l
  induction l with
  | nil => intro _; rfl
  | cons c cs ih =>
    intro h
    rw [List.takeWhile_cons, if_pos (h c (List.mem_cons_self _ _)),
        ih (fun a ha => h a (List.mem_cons_of_mem _ ha))]

/-- `os.path.basename` is the identity on slash-free paths. -/
theorem basenameL_no_slash {l : List Char} (h : '/' ∉ l) : basenameL l = l := by
  unfold basenameL
  rw [takeWhile_all l.reverse
    (fun a ha => by
      have : a ∈ l := List.mem_reverse.mp ha
      simp only [Bool.not_eq_true']
      simp only [decide_eq_false_iff_not]
      exact fun he => h (he ▸ this)), List.reverse_reverse]

/-- `str.replace(".js", "")` restores a stem that contains no interior
occurrence of `.js`: an occurrence cannot straddle the boundary between the
stem and the final `.js`. -/
theorem replaceJs_stem : ∀ (stem : List Char), containsPat jsTok stem = false →
    replaceJsL (stem ++ jsTok) = stem := by
  intro stem
  induction stem with
  | nil => intro _; rfl
  | cons a stem' ih =>
    intro h
    rw [List.cons_append]
    unfold replaceJsL
    split
    · rename_i rest heq
      injection heq with h1 h2
      subst h1
      cases stem' with
      | nil => simp [jsTok] at h2
      | cons b stem'' =>
        rw [List.cons_append] at h2
        injection h2 with h3 h4
        subst h3
        cases stem'' with
        | nil => simp [jsTok] at h4
        | cons d stem''' =>
          rw [List.cons_append] at h4
          injection h4 with h5 h6
          subst h5
          have hpre : jsTok.isPrefixOf ('.' :: 'j' :: 's' :: stem''') = true := by
            simp [jsTok, List.isPrefixOf]
          have hcp : containsPat jsTok ('.' :: 'j' :: 's' :: stem''') = false := h
          rw [show containsPat jsTok ('.' :: 'j' :: 's' :: stem''')
              = (jsTok.isPrefixOf ('.' :: 'j' :: 's' :: stem''')
                  || containsPat jsTok ('j' :: 's' :: stem''')) from rfl] at hcp
          rw [hpre] at hcp
          simp at hcp
    · rename_i c cs heq hno
      injection hno with h1 h2
      subst h1
      rw [← h2, ih (containsPat_tail h)]
    · rename_i heq
      exact absurd heq (by simp)

/-- The second import substitution is the identity on brace-free texts:
pattern 2 requires a literal `{`. -/
theorem subImport2_id_of_no_brace {s : String} (h : '\x7b' ∉ s.data) :
    subImport2 s = s := by
  apply String.ext
  exact scanA_id attempt2 (fun t => '\x7b' ∉ t)
    (fun t ht => by
      cases hA : attempt2 t with
      | none => rfl
      | some r => exact absurd (attempt2_some_brace hA) ht)
    (fun c cs hc hmem => hc (List.mem_cons_of_mem _ hmem)) s.data h true

/-- The first import substitution only deletes text: every character of its
output occurs in its input. -/
theorem subImport1_mem {s : String} {c : Char} (h : c ∈ (subImport1 s).data) :
    c ∈ s.data :=
  scanFuel_mem attempt1
    (fun _ _ hA _ hc2 => (attempt1_suffix hA).subset hc2)
    s.data.length s.data true c h

/-! ### Structure of the bundling loop -/

/-- The fold of `bundleStep` collects the warnings of the missing modules and
the concatenated section strings of the existing ones, in declared order. -/
theorem foldl_bundleStep (fs : String → Option String) :
    ∀ (modules : List String) (w0 s0 : List String),
      modules.foldl (bundleStep fs) (w0, s0)
        = (w0 ++ (modules.filter (fun m => (fs m).isNone)).map warnMsg,
           s0 ++ modules.flatMap (sectionOf fs)) := by
  intro modules
  induction modules with
  | nil => intro w0 s0; simp
  | cons m ms ih =>
    intro w0 s0
    rw [List.foldl_cons]
    cases hm : fs m with
    | none =>
      rw [show bundleStep fs (w0, s0) m = (w0 ++ [warnMsg m], s0) from by
        simp [bundleStep, hm]]
      rw [ih, List.filter_cons, List.flatMap_cons]
      simp [hm, sectionOf, List.append_assoc]
    | some c =>
      rw [show bundleStep fs (w0, s0) m = (w0, s0 ++ sectionStrings m c) from by
        simp [bundleStep, hm]]
      rw [ih, List.filter_cons, List.flatMap_cons]
      simp [hm, sectionOf, List.append_assoc]

/-- The warnings of a run are exactly those of the missing modules, in
order. -/
theorem bundle_warnings (modules : List String) (fs : String → Option String) :
    (bundle_modules modules fs).warnings
      = (modules.filter (fun m => (fs m).isNone)).map warnMsg := by
  show (modules.foldl (bundleStep fs) ([], [])).1 = _
  rw [foldl_bundleStep fs modules [] []]
  simp

/-- The output text of a run: header, the sections contributed by the modules
in declared order, bootstrap, joined with newlines. -/
theorem bundle_content (modules : List String) (fs : String → Option String) :
    (bundle_modules modules fs).content
      = String.intercalate "\n"
          (headerText :: modules.flatMap (sectionOf fs) ++ [bootstrapText]) := by
  show String.intercalate "\n"
      (headerText :: (modules.foldl (bundleStep fs) ([], [])).2 ++ [bootstrapText]) = _
  rw [foldl_bundleStep fs modules [] []]
  simp

/-- Missing modules contribute no section: the contributions come from the
existing modules alone. -/
theorem flatMap_sectionOf_filter (fs : String → Option String) :
    ∀ (modules : List String),
      modules.flatMap (sectionOf fs)
        = (modules.filter (fun m => (fs m).isSome)).flatMap (sectionOf fs) := by
  intro modules
  induction modules with
  | nil => rfl
  | cons m ms ih =>
    rw [List.flatMap_cons, List.filter_cons]
    cases hm : fs m with
    | none => simp [sectionOf, hm, ih]
    | some c => simp [sectionOf, hm, ← ih]

/-- When every module exists, each contributes its section strings. -/
theorem flatMap_sectionOf_all (fs : String → Option String)
    (modules : List String) (h : ∀ m ∈ modules, (fs m).isSome = true) :
    modules.flatMap (sectionOf fs)
      = modules.flatMap (fun m => sectionStrings m ((fs m).getD "")) := by
  revert h
  induction modules with
  | nil => intro _; rfl
  | cons m ms ih =>
    intro h
    rw [List.flatMap_cons, List.flatMap_cons, ih (fun x hx => h x (List.mem_cons_of_mem _ hx))]
    cases hm : fs m with
    | none =>
      have := h m (List.mem_cons_self _ _)
      rw [hm] at this
      simp at this
    | some c => simp [sectionOf, hm]

/-! ### The claims -/

/-- Claim C1, counterexample: the claim says every import statement spanning
more than one line passes through `remove_imports_exports` unmodified; the
multi-line destructured import below is instead removed entirely (pattern 2's
`[^\x7d]*` matches newline characters). -/
theorem C1_counterexample :
    remove_imports_exports "import \x7b\na\n\x7d from \x27x\x27;"
        ≠ "import \x7b\na\n\x7d from \x27x\x27;" ∧
    remove_imports_exports "import \x7b\na\n\x7d from \x27x\x27;" = "" := by
  refine ⟨by decide, by decide⟩

/-- Claim C1, amended: multi-line import statements are not uniformly passed
through.  A destructured import whose brace group spans lines is removed by
pattern 2; a line break lying inside the whitespace after `import` or after
`from` is matched by `\s+` of pattern 1 and the statement is removed; an import
statement broken elsewhere — inside a non-braced binding list, or
between the binding and `from` — passes through unmodified. -/
theorem C1_amended_multiline_imports :
    remove_imports_exports "import \x7b\na, b\n\x7d from \x27x\x27;" = "" ∧
    remove_imports_exports "import\na from \x27x\x27;" = "" ∧
    remove_imports_exports "import a from\n\x27x\x27;" = "" ∧
    remove_imports_exports "import a,\nb from \x27x\x27;"
      = "import a,\nb from \x27x\x27;" ∧
    remove_imports_exports "import x\nfrom \x27y\x27;"
      = "import x\nfrom \x27y\x27;" := by
  refine ⟨by decide, by decide, by decide, by decide, by decide⟩

/-- Claim C2, counterexample: `remove_imports_exports` is not idempotent.
The export substitution resumes scanning after a match from a non-`^`
position, so `export export class A` loses only its first `export`; a second
application removes the newly exposed one. -/
theorem C2_counterexample :
    remove_imports_exports (remove_imports_exports "export export class A")
      ≠ remove_imports_exports "export export class A" ∧
    remove_imports_exports "export export class A" = "export class A" ∧
    remove_imports_exports (remove_imports_exports "export export class A")
      = "class A" := by
  refine ⟨by decide, by decide, by decide⟩

/-- Claim C2, amended: on texts containing no occurrence of `import` and no
occurrence of `export`, `remove_imports_exports` is the identity and in
particular applying it twice equals applying it once. -/
theorem C2_amended_idempotent_on_clean (s : String)
    (h1 : containsPat importTok s.data = false)
    (h2 : containsPat exportTok s.data = false) :
    remove_imports_exports (remove_imports_exports s)
      = remove_imports_exports s := by
  rw [remove_imports_exports_id h1 h2]
  exact remove_imports_exports_id h1 h2

/-- Claim C2, witness for the amended theorem at a concrete input. -/
theorem C2_amended_witness :
    containsPat importTok ("class A").data = false ∧
    containsPat exportTok ("class A").data = false ∧
    remove_imports_exports (remove_imports_exports "class A")
      = remove_imports_exports "class A" :=
  ⟨by decide, by decide,
    C2_amended_idempotent_on_clean "class A" (by decide) (by decide)⟩

/-- Claim C3, counterexample: for an input with a single-line import statement
on its own full line in the middle of the text, the line's content is removed
but its line break survives, leaving an empty line — the output is not the
text with that line deleted. -/
theorem C3_counterexample :
    remove_imports_exports "a\nimport x from \x27y\x27;\nb" = "a\n\nb" ∧
    remove_imports_exports "a\nimport x from \x27y\x27;\nb" ≠ "a\nb" := by
  refine ⟨by decide, by decide⟩

/-- Claim C3, amended: a single-line import statement occupying its own full
line has its text removed; when further non-whitespace content follows, the
statement's terminating newline is kept (the `\s*$` backtracks to just before
it), leaving an empty line; when the import statement ends the text, the
statement and its trailing newline are removed entirely; surrounding lines
are preserved verbatim. -/
theorem C3_amended_blank_line :
    remove_imports_exports "a\nimport x from \x27y\x27;\nb" = "a\n\nb" ∧
    remove_imports_exports "a\nimport \x7b c, d \x7d from \x27y\x27;\nb"
      = "a\n\nb" ∧
    remove_imports_exports "a\nimport x from \x27y\x27;\n" = "a\n" ∧
    remove_imports_exports "a\nimport x from \x27y\x27;" = "a\n" ∧
    remove_imports_exports "a\nimport \x7b c, d \x7d from \x27y\x27;" = "a\n" := by
  refine ⟨by decide, by decide, by decide, by decide, by decide⟩

/-- Claim C4, counterexample: the success summary does not report the number
of modules actually processed: with the single declared module missing,
nothing is processed, yet the summary line still reports the declared count
1. -/
theorem C4_counterexample :
    processedCount ["a.js"] noFs = 0 ∧
    (bundle_modules ["a.js"] noFs).summary1
      ≠ "Successfully bundled " ++ toString (processedCount ["a.js"] noFs)
          ++ " modules into content-refactored.js" ∧
    (bundle_modules ["a.js"] noFs).summary1
      = "Successfully bundled 1 modules into content-refactored.js" := by
  refine ⟨by decide, by decide, by decide⟩

/-- Claim C4, amended: the summary reports the declared list length
(`len(MODULES)`), regardless of skipped modules, together with the character
length of the bundled text. -/
theorem C4_amended_reports_declared_count (modules : List String)
    (fs : String → Option String) :
    (bundle_modules modules fs).summary1
      = "Successfully bundled " ++ toString modules.length
          ++ " modules into content-refactored.js" ∧
    (bundle_modules modules fs).summary2
      = "Total size: " ++ toString (bundle_modules modules fs).content.length
          ++ " characters" :=
  ⟨rfl, rfl⟩

/-- Claim C5, counterexample: the claim predicts that the line `export `
(export followed only by whitespace) becomes the empty line and the next
line `x` is unchanged, i.e. output `"\nx"`; the greedy `\s+` instead
swallows the line break and the output is `"x"`. -/
theorem C5_counterexample :
    remove_imports_exports "export \nx" = "x" ∧
    remove_imports_exports "export \nx" ≠ "\nx" := by
  refine ⟨by decide, by decide⟩

/-- Claim C5, amended: on a text untouched by the two import substitutions
whose lines are newline-free and OK — every line starting with `export`
continues with whitespace and has non-whitespace content on the same line —
`remove_imports_exports` acts line by line: it strips the leading `export`
and its following whitespace from such lines and leaves every other line
unchanged. -/
theorem C5_amended_per_line (L : List String)
    (hnl : ∀ l ∈ L, l.data.contains '\n' = false)
    (hok : ∀ l ∈ L, lineOK l.data = true)
    (h1 : subImport1 (joinLines L) = joinLines L)
    (h2 : subImport2 (joinLines L) = joinLines L) :
    remove_imports_exports (joinLines L) = joinLines (L.map stripExportLineS) := by
  unfold remove_imports_exports
  rw [h1, h2]
  apply String.ext
  show scanA attempt3 (joinLinesL (L.map String.data)) true = _
  rw [scanA3_join (L.map String.data) (by
    intro l hl
    obtain ⟨l0, hl0, rfl⟩ := List.mem_map.mp hl
    exact ⟨contains_false_not_mem (hnl l0 hl0), hok l0 hl0⟩)]
  show joinLinesL ((L.map String.data).map stripExportLine) = _
  rw [List.map_map]
  congr 1
  rw [List.map_map]
  rfl

/-- Claim C5, witness for the amended theorem at a concrete input. -/
theorem C5_amended_witness :
    remove_imports_exports (joinLines ["export class A \x7b", "\x7d"])
      = joinLines (["export class A \x7b", "\x7d"].map stripExportLineS) ∧
    joinLines (["export class A \x7b", "\x7d"].map stripExportLineS)
      = "class A \x7b\n\x7d" :=
  ⟨C5_amended_per_line ["export class A \x7b", "\x7d"]
      (by decide) (by decide) (by decide) (by decide),
    by decide⟩

/-- Claim C6: when exactly one declared path is missing, the run completes
(the bundling function is total), prints exactly that path's warning line —
which contains the path — and the output text consists of the header, the
sections of the existing modules in declared order, and the bootstrap, with
no section for the missing path. -/
theorem C6_missing_module (modules : List String) (fs : String → Option String)
    (p : String) (h : modules.filter (fun m => (fs m).isNone) = [p]) :
    (bundle_modules modules fs).warnings
      = ["Warning: " ++ p ++ " not found, skipping..."] ∧
    (bundle_modules modules fs).content
      = String.intercalate "\n"
          (headerText
            :: (modules.filter (fun m => (fs m).isSome)).flatMap (sectionOf fs)
            ++ [bootstrapText]) ∧
    p ∉ modules.filter (fun m => (fs m).isSome) := by
  refine ⟨?_, ?_, ?_⟩
  · rw [bundle_warnings, h]; rfl
  · rw [bundle_content, flatMap_sectionOf_filter]
  · intro hp
    have h1 : (fs p).isSome = true := (List.mem_filter.mp hp).2
    have hmem : p ∈ modules.filter (fun m => (fs m).isNone) := by
      rw [h]; exact List.mem_cons_self _ _
    have h2 : (fs p).isNone = true := (List.mem_filter.mp hmem).2
    cases hfs : fs p
    · rw [hfs] at h1; simp at h1
    · rw [hfs] at h2; simp at h2

/-- Claim C6, witness at a concrete module list and file system. -/
theorem C6_missing_module_witness :
    (["a.js", "missing.js"].filter (fun m => ((exFs m).isNone)) = ["missing.js"]) ∧
    ((bundle_modules ["a.js", "missing.js"] exFs).warnings
        = ["Warning: " ++ "missing.js" ++ " not found, skipping..."] ∧
      (bundle_modules ["a.js", "missing.js"] exFs).content
        = String.intercalate "\n"
            (headerText
              :: (["a.js", "missing.js"].filter
                    (fun m => ((exFs m).isSome))).flatMap (sectionOf exFs)
              ++ [bootstrapText]) ∧
      "missing.js" ∉ ["a.js", "missing.js"].filter (fun m => ((exFs m).isSome))) :=
  ⟨by decide, C6_missing_module ["a.js", "missing.js"] exFs "missing.js" (by decide)⟩

/-- Claim C7: when every declared module exists, the bundle text is the
header, then for each module in declared order its divider comment,
upper-cased name comment, closing divider, transformed (import/export
stripped, trimmed) content and blank separator, then the bootstrap; and for
the one-module example `a.js` containing `export class A \x7b\x7d` the output is
exactly header, divider, `// A MODULE`, divider, `class A \x7b\x7d`, separator,
bootstrap, where the bootstrap contains `new AmazonScraperApp();`. -/
theorem C7_bundle_structure :
    (∀ (modules : List String) (fs : String → Option String),
      (∀ m ∈ modules, (fs m).isSome = true) →
      (bundle_modules modules fs).content
        = String.intercalate "\n"
            (headerText
              :: modules.flatMap (fun m => sectionStrings m ((fs m).getD ""))
              ++ [bootstrapText])) ∧
    (bundle_modules ["a.js"] exFs).content
      = String.intercalate "\n"
          [headerText, "\n" ++ dividerLine, "// A MODULE", dividerLine ++ "\n",
           "class A \x7b\x7d", "\n", bootstrapText] ∧
    containsPat ("new AmazonScraperApp();").data bootstrapText.data = true := by
  refine ⟨?_, ?_, ?_⟩
  · intro modules fs h
    rw [bundle_content, flatMap_sectionOf_all fs modules h]
  · rfl
  · decide

/-- Claim C7, witness for the universal part at a concrete input. -/
theorem C7_bundle_structure_witness :
    (∀ m ∈ (["a.js"] : List String), (exFs m).isSome = true) ∧
    (bundle_modules ["a.js"] exFs).content
      = String.intercalate "\n"
          (headerText
            :: (["a.js"] : List String).flatMap
                  (fun m => sectionStrings m ((exFs m).getD ""))
            ++ [bootstrapText]) :=
  ⟨by decide, C7_bundle_structure.1 ["a.js"] exFs (by decide)⟩

/-- Claim C8, counterexample: the display name is not obtained by stripping
the final extension — every occurrence of `.js` is deleted.  For the base
name `a.jsb.js` the claim predicts `A.JSB`; the code produces `AB`. -/
theorem C8_counterexample :
    displayName "a.jsb.js" = "AB" ∧ ("AB" : String) ≠ "A.JSB" := by
  refine ⟨by decide, by decide⟩

/-- Claim C8, amended: the display name deletes every occurrence of `.js`
from the base name and upper-cases the rest.  When the base name is a
`.js`-free stem followed by a single final `.js`, this coincides with the
claim: the extension is stripped and the stem upper-cased, as in the
spec's example `src/utils/DOMHelpers.js` ↦ `DOMHELPERS`. -/
theorem C8_amended_display_name :
    (∀ stem : List Char, containsPat jsTok stem = false →
      stem.contains '/' = false →
      displayName (String.mk (stem ++ jsTok))
        = String.mk (stem.map Char.toUpper)) ∧
    displayName "src/utils/DOMHelpers.js" = "DOMHELPERS" := by
  refine ⟨?_, by decide⟩
  intro stem h hs
  unfold displayName
  have hb : basenameL (String.mk (stem ++ jsTok)).data = stem ++ jsTok := by
    apply basenameL_no_slash
    intro hm
    rcases List.mem_append.mp hm with hm1 | hm2
    · exact contains_false_not_mem hs hm1
    · revert hm2; decide
  rw [hb, replaceJs_stem stem h]

/-- Claim C8, witness for the amended theorem at a concrete stem. -/
theorem C8_amended_display_name_witness :
    containsPat jsTok ("storagemanager").data = false ∧
    (("storagemanager").data.contains '/') = false ∧
    displayName (String.mk (("storagemanager").data ++ jsTok))
      = String.mk (("storagemanager").data.map Char.toUpper) :=
  ⟨by decide, by decide,
    C8_amended_display_name.1 ("storagemanager").data (by decide) (by decide)⟩

/-- Claim C9: for the empty module list the output text is exactly the header
followed by the bootstrap (joined by one newline), with no module sections
and no warnings, whatever the file system contains. -/
theorem C9_empty_list (fs : String → Option String) :
    (bundle_modules [] fs).content = headerText ++ "\n" ++ bootstrapText ∧
    (bundle_modules [] fs).warnings = [] :=
  ⟨rfl, rfl⟩

/-- Claim C10, counterexample: the claim says the full function and the
variant without pattern 2 can differ only on destructured imports whose
brace group spans lines.  In the input below the braces sit on one line, yet
the two functions differ: pattern 2 still matches across the line break
between `\x7d` and `from`, because its `\s+` matches newlines. -/
theorem C10_counterexample :
    remove_imports_exports "import \x7b a \x7d\nfrom \x27x\x27;"
      ≠ remove_imports_exports_noBrace "import \x7b a \x7d\nfrom \x27x\x27;" ∧
    remove_imports_exports "import \x7b a \x7d\nfrom \x27x\x27;" = "" ∧
    remove_imports_exports_noBrace "import \x7b a \x7d\nfrom \x27x\x27;"
      = "import \x7b a \x7d\nfrom \x27x\x27;" := by
  refine ⟨by decide, by decide, by decide⟩

/-- Claim C10, amended: the two functions agree on every text containing no
opening brace at all: pattern 2 needs a literal `\x7b`, the first pass only
deletes characters, so the second pass finds nothing to match. -/
theorem C10_amended_brace_free (s : String)
    (h : s.data.contains '\x7b' = false) :
    remove_imports_exports s = remove_imports_exports_noBrace s := by
  unfold remove_imports_exports remove_imports_exports_noBrace
  rw [subImport2_id_of_no_brace
    (fun hmem => contains_false_not_mem h (subImport1_mem hmem))]

/-- Claim C10, witness for the amended theorem at a concrete input. -/
theorem C10_amended_brace_free_witness :
    (("import a from \x27x\x27;\nclass A").data.contains '\x7b') = false ∧
    remove_imports_exports "import a from \x27x\x27;\nclass A"
      = remove_imports_exports_noBrace "import a from \x27x\x27;\nclass A" :=
  ⟨by decide, C10_amended_brace_free "import a from \x27x\x27;\nclass A" (by decide)⟩
